import Mathlib

set_option maxRecDepth 4000
/-!
Shallow embedding of the Perlin noise generator from
`src/src/noise/noises/perlin.rs`.

Floating-point (`f32`) arithmetic is modelled by exact rational
arithmetic over `ℚ`.  `uint` values are modelled by `ℕ`; the cast
`x.floor() as uint` is modelled by `(⌊x⌋).toNat`, which agrees with the
Rust semantics on the non-negative coordinates the algorithm is
specified for (negative coordinates are an open edge case in the spec).
Array indexing `P[i]` is modelled by `List.getD` with default `0`; the
code only ever indexes with `i & 0xFF`, which is in bounds.
-/

namespace RustNoise

/-- The pre-calculated permutation table `P` from the source, verbatim. -/
def P : List ℕ := [
  151, 160, 137, 91, 90, 15, 131, 13, 201, 95,
  96, 53, 194, 233, 7, 225, 140, 36, 103, 30,
  69, 142, 8, 99, 37, 240, 21, 10, 23, 190,
  6, 148, 247, 120, 234, 75, 0, 26, 197, 62,
  94, 252, 219, 203, 117, 35, 11, 32, 57, 177,
  33, 88, 237, 149, 56, 87, 174, 20, 125, 136,
  171, 168, 68, 175, 74, 165, 71, 134, 139, 48,
  27, 166, 77, 146, 158, 231, 83, 111, 229, 122,
  60, 211, 133, 230, 220, 105, 92, 41, 55, 46,
  245, 40, 244, 102, 143, 54, 65, 25, 63, 161,
  1, 216, 80, 73, 209, 76, 132, 187, 208, 89,
  18, 169, 200, 196, 135, 130, 116, 188, 159, 86,
  164, 100, 109, 198, 173, 186, 3, 64, 52, 217,
  226, 250, 124, 123, 5, 202, 38, 147, 118, 126,
  255, 82, 85, 212, 207, 206, 59, 227, 47, 16,
  58, 17, 182, 189, 28, 42, 223, 183, 170, 213,
  119, 248, 152, 2, 44, 154, 163, 70, 221, 153,
  101, 155, 167, 43, 172, 9, 129, 22, 39, 253,
  19, 98, 108, 110, 79, 113, 224, 232, 178, 185,
  112, 104, 218, 246, 97, 228, 251, 34, 242, 193,
  238, 210, 144, 12, 191, 179, 162, 241, 81, 51,
  145, 235, 249, 14, 239, 107, 49, 192, 214, 31,
  181, 199, 106, 157, 184, 84, 204, 176, 115, 121,
  50, 45, 127, 4, 150, 254, 138, 236, 205, 93,
  222, 114, 67, 29, 24, 72, 243, 141, 128, 195,
  78, 66, 215, 61, 156, 180
]

/-- Array read `P[i]` (the source always masks `i` before indexing). -/
def Pget (i : ℕ) : ℕ := P.getD i 0

/-- Spec §4.1 `PermutationTable.lookup`: mask to the low 8 bits, then read. -/
def lookup (i : ℕ) : ℕ := Pget (i &&& 0xFF)

/-- The `Perlin` struct: configuration of the fractal summation. -/
structure Perlin where
  octave_count : ℕ
  frequency : ℚ
  lacuranity : ℚ
  persistence : ℚ

/-- `Perlin::new()`: default configuration. -/
def Perlin.new : Perlin :=
  { octave_count := 6, frequency := 1.0, persistence := 0.5, lacuranity := 2.0 }

/-- S-curve `fade(t) = t * t * t * (t * (t * 6.0 - 15.0) + 10.0)`. -/
def fade (t : ℚ) : ℚ := t * t * t * (t * (t * 6 - 15) + 10)

/-- Linear interpolation `lerp(t, a, b) = a + t * (b - a)`. -/
def lerp (t a b : ℚ) : ℚ := a + t * (b - a)

/-- Gradient selection `grad(hash, x, y, z)` from the source. -/
def grad (hash : ℕ) (x y z : ℚ) : ℚ :=
  let h := hash &&& 15
  let u := if h < 8 then x else y
  let v := if h < 4 then y else if h = 12 ∨ h = 14 then x else z
  (if h &&& 1 = 0 then u else -u) + (if h &&& 2 = 0 then v else -v)

/-- One-octave noise `Perlin::generate_noise(x, y, z)` (it reads no
configuration field, so `self` is dropped). -/
def generate_noise (x y z : ℚ) : ℚ :=
  let int_x : ℕ := (⌊x⌋).toNat
  let int_y : ℕ := (⌊y⌋).toNat
  let int_z : ℕ := (⌊z⌋).toNat
  let x := x - ⌊x⌋
  let y := y - ⌊y⌋
  let z := z - ⌊z⌋
  let u := fade x
  let v := fade y
  let w := fade z
  let a := Pget (int_x &&& 0xFF) + int_y
  let aa := Pget (a &&& 0xFF) + int_z
  let ab := Pget ((a + 1) &&& 0xFF) + int_z
  let b := Pget ((int_x + 1) &&& 0xFF) + int_y
  let ba := Pget (b &&& 0xFF) + int_z
  let bb := Pget ((b + 1) &&& 0xFF) + int_z
  lerp w
    (lerp v
      (lerp u (grad (Pget (aa &&& 0xFF)) x y z)
              (grad (Pget (ba &&& 0xFF)) (x - 1) y z))
      (lerp u (grad (Pget (ab &&& 0xFF)) x (y - 1) z)
              (grad (Pget (bb &&& 0xFF)) (x - 1) (y - 1) z)))
    (lerp v
      (lerp u (grad (Pget ((aa + 1) &&& 0xFF)) x y (z - 1))
              (grad (Pget ((ba + 1) &&& 0xFF)) (x - 1) y (z - 1)))
      (lerp u (grad (Pget ((ab + 1) &&& 0xFF)) x (y - 1) (z - 1))
              (grad (Pget ((bb + 1) &&& 0xFF)) (x - 1) (y - 1) (z - 1))))

/-- The octave loop of `get_value`: state is
`(x, y, z, value, cur_persistence, total_amplitude)`, one constructor
step per iteration of `for _ in range(1, octave_count + 1)`.  Returns
the final `(value, total_amplitude)`. -/
def octaveLoop (p : Perlin) : ℕ → ℚ → ℚ → ℚ → ℚ → ℚ → ℚ → ℚ × ℚ
  | 0, _, _, _, value, _, total_amplitude => (value, total_amplitude)
  | n + 1, x, y, z, value, cur_persistence, total_amplitude =>
      octaveLoop p n (x * p.lacuranity) (y * p.lacuranity) (z * p.lacuranity)
        (value + generate_noise x y z * cur_persistence)
        (cur_persistence * p.persistence)
        (total_amplitude + cur_persistence)

/-- Raw accumulated octave sum of `get_value` before the normalization
branch (the loop run on frequency-scaled coordinates, first projection). -/
def rawValue (p : Perlin) (x y z : ℚ) : ℚ :=
  (octaveLoop p p.octave_count (x * p.frequency) (y * p.frequency) (z * p.frequency) 0 1 0).1

/-- The `total_amplitude` accumulated by the loop of `get_value`. -/
def totalAmplitude (p : Perlin) (x y z : ℚ) : ℚ :=
  (octaveLoop p p.octave_count (x * p.frequency) (y * p.frequency) (z * p.frequency) 0 1 0).2

/-- `Noise::get_value` for `Perlin`: frequency scaling, octave loop,
then normalization only when `|value| > 1`. -/
def get_value (p : Perlin) (x y z : ℚ) : ℚ :=
  let st := octaveLoop p p.octave_count (x * p.frequency) (y * p.frequency) (z * p.frequency) 0 1 0
  if |st.1| > 1 then st.1 / st.2 else st.1


/-- Gradient selection as the specification words it: `h = hash & 15`;
`u_component = x if h < 8 else y`; `v_component = y if h < 4, else x if
h ∈ {12,14}, else z`; the signs of the two components are the low two
bits of `h`. -/
def gradSpec (hash : ℕ) (x y z : ℚ) : ℚ :=
  let h := hash &&& 15
  let u_component := if h < 8 then x else y
  let v_component := if h < 4 then y else if h = 12 ∨ h = 14 then x else z
  (if h % 2 = 0 then u_component else -u_component) +
    (if h / 2 % 2 = 0 then v_component else -v_component)

/-- Every index the body of `generate_noise` uses to read `P`, in
evaluation order. -/
def noiseIndices (x y z : ℚ) : List ℕ :=
  let int_x : ℕ := (⌊x⌋).toNat
  let int_y : ℕ := (⌊y⌋).toNat
  let int_z : ℕ := (⌊z⌋).toNat
  let a := Pget (int_x &&& 0xFF) + int_y
  let aa := Pget (a &&& 0xFF) + int_z
  let ab := Pget ((a + 1) &&& 0xFF) + int_z
  let b := Pget ((int_x + 1) &&& 0xFF) + int_y
  let ba := Pget (b &&& 0xFF) + int_z
  let bb := Pget ((b + 1) &&& 0xFF) + int_z
  [int_x &&& 0xFF, a &&& 0xFF, (a + 1) &&& 0xFF, (int_x + 1) &&& 0xFF,
    b &&& 0xFF, (b + 1) &&& 0xFF, aa &&& 0xFF, ba &&& 0xFF, ab &&& 0xFF,
    bb &&& 0xFF, (aa + 1) &&& 0xFF, (ba + 1) &&& 0xFF, (ab + 1) &&& 0xFF,
    (bb + 1) &&& 0xFF]

/-- Masked indices are within the 256-entry table. -/
theorem and255_lt (n : ℕ) : n &&& 255 < 256 :=
  Nat.lt_succ_of_le Nat.and_le_right

/-- The gradient of any hash against the zero offset vanishes. -/
theorem grad_zero (h : ℕ) : grad h 0 0 0 = 0 := by
  simp only [grad]
  split <;> split <;> norm_num

/-- Closed form of the octave loop: partial sums of weighted octaves. -/
theorem octaveLoop_eq (p : Perlin) :
    ∀ (n : ℕ) (x y z value cur total : ℚ),
      octaveLoop p n x y z value cur total =
        (value + ∑ k ∈ Finset.range n,
            cur * p.persistence ^ k *
              generate_noise (p.lacuranity ^ k * x) (p.lacuranity ^ k * y)
                (p.lacuranity ^ k * z),
          total + cur * ∑ k ∈ Finset.range n, p.persistence ^ k) := by
  intro n
  induction n with
  | zero => intro x y z value cur total; simp [octaveLoop]
  | succ n ih =>
      intro x y z value cur total
      rw [octaveLoop, ih]
      have hgx : ∀ k : ℕ, p.lacuranity ^ k * (x * p.lacuranity) = p.lacuranity ^ (k + 1) * x := by
        intro k; ring
      have hgy : ∀ k : ℕ, p.lacuranity ^ k * (y * p.lacuranity) = p.lacuranity ^ (k + 1) * y := by
        intro k; ring
      have hgz : ∀ k : ℕ, p.lacuranity ^ k * (z * p.lacuranity) = p.lacuranity ^ (k + 1) * z := by
        intro k; ring
      simp only [hgx, hgy, hgz]
      rw [Prod.mk.injEq]
      constructor
      · rw [Finset.sum_range_succ'
          (fun k => cur * p.persistence ^ k *
            generate_noise (p.lacuranity ^ k * x) (p.lacuranity ^ k * y) (p.lacuranity ^ k * z)) n]
        simp only [pow_zero, pow_succ, one_mul]
        have hsum :
            (∑ k ∈ Finset.range n,
              cur * p.persistence * p.persistence ^ k *
                generate_noise (p.lacuranity ^ (k + 1) * x) (p.lacuranity ^ (k + 1) * y)
                  (p.lacuranity ^ (k + 1) * z)) =
            ∑ k ∈ Finset.range n,
              cur * (p.persistence ^ k * p.persistence) *
                generate_noise (p.lacuranity ^ (k + 1) * x) (p.lacuranity ^ (k + 1) * y)
                  (p.lacuranity ^ (k + 1) * z) := by
          refine Finset.sum_congr rfl ?_
          intro k _
          ring
        simp only [pow_succ] at hsum ⊢
        rw [hsum]
        ring
      · rw [Finset.sum_range_succ' (fun k => p.persistence ^ k) n]
        have hsum : (∑ k ∈ Finset.range n, p.persistence ^ (k + 1)) =
            ∑ k ∈ Finset.range n, p.persistence ^ k * p.persistence := by
          refine Finset.sum_congr rfl ?_
          intro k _
          ring
        simp only [pow_zero, hsum, ← Finset.sum_mul]
        ring

/-- At a non-negative integer lattice point the single-octave kernel
collapses to the gradient of the triple-hashed corner against the zero
offset. -/
theorem generate_noise_natCast (a b c : ℕ) :
    generate_noise a b c =
      grad (Pget ((Pget ((Pget (a &&& 255) + b) &&& 255) + c) &&& 255)) 0 0 0 := by
  unfold generate_noise
  simp [Int.floor_natCast, Int.toNat_natCast, sub_self, fade, lerp]

/-- The single-octave kernel vanishes at the origin. -/
theorem generate_noise_zero : generate_noise 0 0 0 = 0 := by
  have h := generate_noise_natCast 0 0 0
  norm_num at h
  rw [h, grad_zero]


/-- C5: the factored evaluation of `fade` equals the quintic
`6t^5 - 15t^4 + 10t^3`. -/
theorem fade_is_quintic (t : ℚ) : fade t = 6 * t ^ 5 - 15 * t ^ 4 + 10 * t ^ 3 := by
  unfold fade; ring

/-- C4: `grad` computes exactly the hash-masked component selection and
sign rule stated by the spec. -/
theorem grad_matches_spec (hash : ℕ) (x y z : ℚ) :
    grad hash x y z = gradSpec hash x y z := by
  have hlt : hash &&& 15 < 16 := Nat.lt_succ_of_le Nat.and_le_right
  revert hlt
  simp only [grad, gradSpec]
  generalize hash &&& 15 = m
  intro hlt
  interval_cases m <;> simp <;> (intro h; exact absurd (by decide) h)

/-- C2: `get_value` divides the raw accumulated sum by the total
amplitude (the sum of the per-octave amplitudes `persistence^k`) exactly
when the raw sum exceeds 1 in absolute value, and otherwise returns the
raw sum unchanged. -/
theorem get_value_normalizes_iff (p : Perlin) (x y z : ℚ) :
    get_value p x y z =
      if 1 < |rawValue p x y z| then
        rawValue p x y z / ∑ k ∈ Finset.range p.octave_count, p.persistence ^ k
      else rawValue p x y z := by
  unfold get_value rawValue
  rw [octaveLoop_eq]
  simp

/-- C3: the raw pre-normalization value is the sum over octaves of
`persistence^k * kernel(frequency * lacunarity^k * (x,y,z))`, and the
total amplitude is the matching geometric partial sum. -/
theorem rawValue_totalAmplitude_closed_form (p : Perlin) (x y z : ℚ)
    (h : 1 ≤ p.octave_count) :
    rawValue p x y z =
      (∑ k ∈ Finset.range p.octave_count, p.persistence ^ k *
        generate_noise (p.frequency * p.lacuranity ^ k * x)
          (p.frequency * p.lacuranity ^ k * y)
          (p.frequency * p.lacuranity ^ k * z)) ∧
    totalAmplitude p x y z = ∑ k ∈ Finset.range p.octave_count, p.persistence ^ k := by
  unfold rawValue totalAmplitude
  rw [octaveLoop_eq]
  have hgx : ∀ k : ℕ, p.lacuranity ^ k * (x * p.frequency) = p.frequency * p.lacuranity ^ k * x := by
    intro k; ring
  have hgy : ∀ k : ℕ, p.lacuranity ^ k * (y * p.frequency) = p.frequency * p.lacuranity ^ k * y := by
    intro k; ring
  have hgz : ∀ k : ℕ, p.lacuranity ^ k * (z * p.frequency) = p.frequency * p.lacuranity ^ k * z := by
    intro k; ring
  simp [hgx, hgy, hgz]

/-- Witness for C3 at a concrete configuration and input. -/
theorem rawValue_totalAmplitude_closed_form_witness :
    rawValue ⟨1, 1, 2, 1/2⟩ 0 0 0 =
      (∑ k ∈ Finset.range 1, ((1:ℚ)/2) ^ k *
        generate_noise (1 * 2 ^ k * 0) (1 * 2 ^ k * 0) (1 * 2 ^ k * 0)) ∧
    totalAmplitude ⟨1, 1, 2, 1/2⟩ 0 0 0 = ∑ k ∈ Finset.range 1, ((1:ℚ)/2) ^ k :=
  rawValue_totalAmplitude_closed_form ⟨1, 1, 2, 1/2⟩ 0 0 0 (le_refl 1)

/-- C6: with `octave_count = 0` the loop body never runs, so the raw
value and the total amplitude stay 0, normalization is skipped, and the
result is 0 for every input and remaining configuration. -/
theorem get_value_octave_count_zero (f l pr x y z : ℚ) :
    rawValue ⟨0, f, l, pr⟩ x y z = 0 ∧ totalAmplitude ⟨0, f, l, pr⟩ x y z = 0 ∧
      get_value ⟨0, f, l, pr⟩ x y z = 0 := by
  refine ⟨?_, ?_, ?_⟩ <;> simp [rawValue, totalAmplitude, get_value, octaveLoop]

/-- C7: at non-negative integer-aligned coordinates with a single octave
(and unit base frequency) the fade and lerp weights collapse, so the
result equals the corner gradient at that lattice point; at (0,0,0) it
equals the gradient value the spec names. -/
theorem lattice_point_value (a b c : ℕ) (l pr : ℚ) :
    get_value ⟨1, 1, l, pr⟩ a b c =
        grad (lookup (lookup (lookup a + b) + c)) 0 0 0 ∧
      get_value ⟨1, 1, l, pr⟩ 0 0 0 = grad (lookup (lookup 0 + 0) + 0) 0 0 0 := by
  constructor
  · unfold get_value
    simp only [octaveLoop]
    rw [show ((a : ℚ) * (Perlin.mk 1 1 l pr).frequency) = (a : ℚ) by simp,
      show ((b : ℚ) * (Perlin.mk 1 1 l pr).frequency) = (b : ℚ) by simp,
      show ((c : ℚ) * (Perlin.mk 1 1 l pr).frequency) = (c : ℚ) by simp]
    rw [generate_noise_natCast]
    simp [grad_zero, lookup]
  · unfold get_value
    simp [octaveLoop, generate_noise_zero, grad_zero]

/-- C9: the table `P` has length 256, entries in `[0, 255]`, and each
value below 256 occurs exactly once. -/
theorem P_table_is_permutation :
    P.length = 256 ∧ (∀ v ∈ P, v < 256) ∧ ∀ v < 256, P.count v = 1 := by
  refine ⟨by decide, by decide, by decide⟩

/-- C10: for every configuration the noise at the origin is exactly 0. -/
theorem get_value_at_origin (p : Perlin) : get_value p 0 0 0 = 0 := by
  unfold get_value
  rw [octaveLoop_eq]
  simp [generate_noise_zero]

/-- Exact value of the single-octave kernel at (37/3, 375/2, 11/2):
the corner gradients of cell (12, 187, 5) align and the blend reaches
503/486, which exceeds 1. -/
theorem generate_noise_cell_12_187_5 :
    generate_noise (37/3) (375/2) (11/2) = 503/486 := by
  have hx : ⌊(37/3 : ℚ)⌋ = 12 := by norm_num
  have hy : ⌊(375/2 : ℚ)⌋ = 187 := by norm_num
  have hz : ⌊(11/2 : ℚ)⌋ = 5 := by norm_num
  have t1 : (12 : ℤ).toNat = 12 := rfl
  have t2 : (187 : ℤ).toNat = 187 := rfl
  have t3 : (5 : ℤ).toNat = 5 := rfl
  have p1 : Pget (12 &&& 255) = 194 := by decide
  have p2 : Pget (381 &&& 255) = 186 := by decide
  have p3 : Pget (382 &&& 255) = 3 := by decide
  have p4 : Pget (13 &&& 255) = 233 := by decide
  have p5 : Pget (420 &&& 255) = 44 := by decide
  have p6 : Pget (421 &&& 255) = 154 := by decide
  have q1 : Pget (191 &&& 255) = 104 := by decide
  have q2 : Pget (49 &&& 255) = 177 := by decide
  have q3 : Pget (8 &&& 255) = 201 := by decide
  have q4 : Pget (159 &&& 255) = 213 := by decide
  have q5 : Pget (192 &&& 255) = 218 := by decide
  have q6 : Pget (50 &&& 255) = 33 := by decide
  have q7 : Pget (9 &&& 255) = 95 := by decide
  have q8 : Pget (160 &&& 255) = 119 := by decide
  have g1 : ∀ x y z : ℚ, grad 104 x y z = y + z := by intro x y z; rfl
  have g2 : ∀ x y z : ℚ, grad 177 x y z = -x + y := by intro x y z; rfl
  have g3 : ∀ x y z : ℚ, grad 201 x y z = -y + z := by intro x y z; rfl
  have g4 : ∀ x y z : ℚ, grad 213 x y z = -x + z := by intro x y z; rfl
  have g5 : ∀ x y z : ℚ, grad 218 x y z = y + -z := by intro x y z; rfl
  have g6 : ∀ x y z : ℚ, grad 33 x y z = -x + y := by intro x y z; rfl
  have g7 : ∀ x y z : ℚ, grad 95 x y z = -y + -z := by intro x y z; rfl
  have g8 : ∀ x y z : ℚ, grad 119 x y z = -x + -z := by intro x y z; rfl
  unfold generate_noise
  rw [hx, hy, hz]
  norm_num [t1, t2, t3, p1, p2, p3, p4, p5, p6,
    q1, q2, q3, q4, q5, q6, q7, q8,
    g1, g2, g3, g4, g5, g6, g7, g8, fade, lerp]

/-- C1: violated by the code.  With octave_count = 1, frequency = 1,
lacunarity = 2, persistence = 1/2 ∈ (0,1), `get_value` at
(37/3, 375/2, 11/2) returns 503/486, whose absolute value exceeds 1 —
the output-range postcondition (and the source's own
`debug_assert!(value.abs() <= 1.0)`) fails at this input. -/
theorem get_value_exceeds_unit_range :
    get_value ⟨1, 1, 2, 1/2⟩ (37/3) (375/2) (11/2) = 503/486 ∧
      1 < |get_value ⟨1, 1, 2, 1/2⟩ (37/3) (375/2) (11/2)| := by
  have hval : get_value ⟨1, 1, 2, 1/2⟩ (37/3) (375/2) (11/2) = 503/486 := by
    unfold get_value
    rw [octaveLoop_eq]
    norm_num [generate_noise_cell_12_187_5, abs_of_nonneg]
  refine ⟨hval, ?_⟩
  rw [hval, abs_of_nonneg (by norm_num : (0:ℚ) ≤ 503/486)]
  norm_num

/-- C8: every index `generate_noise` uses to read the permutation table
is masked with `& 0xFF` and so lies within the table's bounds. -/
theorem noiseIndices_in_bounds (x y z : ℚ) (hx : 0 ≤ x) (hy : 0 ≤ y) (hz : 0 ≤ z) :
    ∀ i ∈ noiseIndices x y z, i < P.length := by
  intro i hi
  have hlen : P.length = 256 := by decide
  rw [hlen]
  simp only [noiseIndices, List.mem_cons, List.not_mem_nil, or_false] at hi
  rcases hi with rfl | rfl | rfl | rfl | rfl | rfl | rfl | rfl | rfl | rfl | rfl | rfl | rfl | rfl <;>
    exact and255_lt _
/-- Witness for C8: the second index read at the origin is 151 = P[0],
and it is within bounds. -/
theorem noiseIndices_in_bounds_witness : 151 < P.length := by
  have hmem : 151 ∈ noiseIndices 0 0 0 := by
    have h0 : ((⌊(0:ℚ)⌋).toNat : ℕ) = 0 := by norm_num
    simp only [noiseIndices, h0]
    refine List.mem_cons.2 (Or.inr (List.mem_cons.2 (Or.inl ?_)))
    decide
  exact noiseIndices_in_bounds 0 0 0 le_rfl le_rfl le_rfl 151 hmem

end RustNoise
